import Mathlib

/-!
Verification of the GenTen distributed GCP-SGD engine.

This file gives a shallow embedding in Lean 4 of the parts of the GenTen
repository that the claims under scrutiny talk about:

* `singleDimMediumGrainBlocking` (Genten_TensorBlockSystem.cpp),
* the `SemiStratifiedSampler` constructor defaulting logic
  (Genten_GCP_SemiStratifiedSampler.hpp),
* `AlgParams::fixup` (Genten_AlgParams.hpp) together with the Cuda run
  check of `GCP_SS_Grad_Str` (Genten_GCP_SS_Grad_Streaming_Def.hpp),
* the fused semi-stratified atomic gradient kernel contributions
  (Genten_GCP_SS_Grad_Streaming_Def.hpp) and the `compute_Ktensor_value`
  helper they call (Genten_Ktensor.hpp),
* `DistGCP::allReduceKT`, the per-epoch accept/reject logic and the epoch
  loops of `DistGCP::allReduceTrad` and `DistGCP::fedOpt`
  (Genten_DistGCP.hpp), and
* the `Ktensor` weight scaling / `distribute` / `normFsq` operations
  (Genten_Ktensor.hpp / .cpp) used by factor initialization.

Machine floating point is modelled by exact rationals except where a claim
hinges on IEEE special values, for which a small value type `Fv` with
infinities and a not-a-number element is used.  MPI collectives are
modelled by their effect on the joint state of all members of a
sub-communicator.  Code of the repository that is not part of the given
sources (the SGD stepper `eval`, `Array::times`, the real nd-th root used
by `distribute`) is modelled from the spec, as flagged in the
corresponding doc comments.
-/

/-! ## Tensor blocking (Genten_TensorBlockSystem.cpp) -/

/-- The while loop of `singleDimMediumGrainBlocking`: the accumulator holds
the `Range` vector in reverse (head is `Range.back()`).  While the back is
below `ml`, push `back + fpb + 1` while `rem` lasts, else `back + fpb`.
The fuel argument only serves Lean's termination checking; it is chosen
large enough that it never runs out on the C++ domain. -/
def sdmgLoop (ml fpb : ℕ) : ℕ → ℕ → List ℕ → List ℕ
  | 0, _, acc => acc
  | fuel + 1, rem, acc =>
    match acc with
    | [] => []
    | back :: _ =>
      if back < ml then
        if 0 < rem then
          sdmgLoop ml fpb fuel (rem - 1) ((back + fpb + 1) :: acc)
        else
          sdmgLoop ml fpb fuel rem ((back + fpb) :: acc)
      else acc

/-- `Genten::detail::singleDimMediumGrainBlocking(ModeLength, ProcsInMode)`:
block boundaries of one tensor mode over the processors of that mode.
`FibersPerBlock = ModeLength / ProcsInMode`, `Remainder = ModeLength %
ProcsInMode`; when `FibersPerBlock == 0` the vector `ModeLength` is pushed
immediately (the special case in the source), then the while loop runs. -/
def singleDimMediumGrainBlocking (ModeLength ProcsInMode : ℕ) : List ℕ :=
  let FibersPerBlock := ModeLength / ProcsInMode
  let Remainder := ModeLength % ProcsInMode
  let start := if FibersPerBlock = 0 then [ModeLength, 0] else [0]
  (sdmgLoop ModeLength FibersPerBlock (ModeLength + 1) Remainder start).reverse

/-! ## SemiStratifiedSampler constructor (Genten_GCP_SemiStratifiedSampler.hpp) -/

/-- Truncating cast `ttb_indx(x)` of a nonnegative real to an index. -/
def truncToIndx (q : ℚ) : ℕ := (Int.floor q).toNat

/-- Sample counts and importance weights held by a `SemiStratifiedSampler`. -/
structure SSParams where
  num_samples_nonzeros_value : ℕ
  num_samples_zeros_value : ℕ
  num_samples_nonzeros_grad : ℕ
  num_samples_zeros_grad : ℕ
  weight_nonzeros_value : ℚ
  weight_zeros_value : ℚ
  weight_nonzeros_grad : ℚ
  weight_zeros_grad : ℚ
  deriving DecidableEq, Repr

/-- The body of the `SemiStratifiedSampler` constructor.  `nnz = X.nnz()`,
`numel` is the total number of tensor entries (`X.numel_float()`),
`maxEpochs = algParams.maxiters`.  The `cfg` arguments are the values read
from `AlgParams` (sample counts of `0` and weights `< 0` mean
"unspecified").  Mirrors the source statement by statement:
`tsz = numel`, `nz = tsz - nnz`,
`ftmp = max((nnz+99)/100, 100000)`,
`gtmp = max((3*nnz+maxEpochs-1)/maxEpochs, 1000)`, then the four sample
counts and then the four weights, each defaulted only if unspecified. -/
def ssSamplerCtor (nnz numel maxEpochs : ℕ)
    (cfg_ns_nz_val cfg_ns_z_val cfg_ns_nz_grad cfg_ns_z_grad : ℕ)
    (cfg_w_f_nz cfg_w_f_z cfg_w_g_nz cfg_w_g_z : ℚ) : SSParams :=
  let tsz : ℚ := (numel : ℚ)
  let nz : ℚ := tsz - (nnz : ℚ)
  let ftmp : ℕ := max ((nnz + 99) / 100) 100000
  let gtmp : ℕ := max ((3 * nnz + maxEpochs - 1) / maxEpochs) 1000
  let nsnzV : ℕ := if cfg_ns_nz_val = 0 then min ftmp nnz else cfg_ns_nz_val
  let nszV : ℕ :=
    if cfg_ns_z_val = 0 then truncToIndx (min (nsnzV : ℚ) nz) else cfg_ns_z_val
  let nsnzG : ℕ := if cfg_ns_nz_grad = 0 then min gtmp nnz else cfg_ns_nz_grad
  let nszG : ℕ :=
    if cfg_ns_z_grad = 0 then truncToIndx (min (nsnzG : ℚ) nz) else cfg_ns_z_grad
  let wfnz : ℚ := if cfg_w_f_nz < 0 then (nnz : ℚ) / (nsnzV : ℚ) else cfg_w_f_nz
  let wfz : ℚ := if cfg_w_f_z < 0 then (tsz - (nnz : ℚ)) / (nszV : ℚ) else cfg_w_f_z
  let wgnz : ℚ := if cfg_w_g_nz < 0 then (nnz : ℚ) / (nsnzG : ℚ) else cfg_w_g_nz
  let wgz : ℚ := if cfg_w_g_z < 0 then tsz / (nszG : ℚ) else cfg_w_g_z
  ⟨nsnzV, nszV, nsnzG, nszG, wfnz, wfz, wgnz, wgz⟩

/-! ## AlgParams::fixup (Genten_AlgParams.hpp) -/

/-- `Genten::Solver_Method` values relevant to `fixup`. -/
inductive SolverMethod where
  | CP_ALS | CP_OPT | GCP_SGD | GCP_OPT
  deriving DecidableEq, Repr

/-- `Genten::GCP_Sampling` values. -/
inductive SamplingType where
  | Uniform | Stratified | SemiStratified
  deriving DecidableEq, Repr

/-- `Genten::MTTKRP_Method` values. -/
inductive MttkrpMethod where
  | Default | OrigKokkos | Atomic | Duplicated | Single | Perm
  deriving DecidableEq, Repr

/-- `Genten::MTTKRP_All_Method` values. -/
inductive MttkrpAllMethod where
  | Default | Iterated | Atomic | Duplicated | Single
  deriving DecidableEq, Repr

/-- The compile-time space properties queried by `AlgParams::fixup`
(`SpaceProperties<ExecSpace>`): whether the space is Cuda, its
concurrency, the Cuda architecture, and `sizeof(ttb_real)`. -/
structure SpaceProp where
  is_cuda : Bool
  concurrency : ℕ
  cuda_arch : ℕ
  sizeof_ttb_real : ℕ
  deriving DecidableEq, Repr

/-- The `AlgParams` fields read or written by `fixup`. -/
structure APForFixup where
  method : SolverMethod
  sampling_type : SamplingType
  fuse : Bool
  mttkrp_method : MttkrpMethod
  mttkrp_all_method : MttkrpAllMethod
  deriving DecidableEq, Repr

/-- Notices that `fixup` writes to its output stream when it overrides an
invalid user choice. -/
inductive FixupNotice where
  | mttkrpInvalidForCuda
  | mttkrpAllInvalidForCuda
  | fusedSemiStratRequiresAtomic
  deriving DecidableEq, Repr

/-- Whether the space supports fast atomics for `ttb_real`
(`cuda_arch >= 600 || sizeof(ttb_real) == 4`), as tested in `fixup`. -/
def fastAtomics (sp : SpaceProp) : Bool :=
  decide (600 ≤ sp.cuda_arch) || decide (sp.sizeof_ttb_real = 4)

/-- `AlgParams::fixup<ExecSpace>(out)`: resolves `Default` methods and
fixes invalid user choices, returning the updated params together with the
list of notices written to `out` (in order).  Statement-for-statement
translation of the source, including the absence of an `else` between the
concurrency test and the Cuda tests in the MTTKRP-All default block. -/
def algParamsFixup (sp : SpaceProp) (p : APForFixup) :
    APForFixup × List FixupNotice :=
  -- Compute default MTTKRP method
  let mm0 := p.mttkrp_method
  let mm1 :=
    if mm0 = MttkrpMethod.Default then
      if sp.concurrency = 1 then MttkrpMethod.Single
      else if sp.is_cuda && fastAtomics sp then MttkrpMethod.Atomic
      else if sp.is_cuda then MttkrpMethod.Perm
      else if p.method = SolverMethod.GCP_SGD then MttkrpMethod.Duplicated
      else MttkrpMethod.Perm
    else mm0
  -- Compute default MTTKRP-All method
  let fusedSS : Bool := sp.is_cuda && decide (p.method = SolverMethod.GCP_SGD)
      && decide (p.sampling_type = SamplingType.SemiStratified) && p.fuse
  let ma0 := p.mttkrp_all_method
  let ma1 :=
    -- the source first runs `if concurrency == 1: Single` but the following
    -- if/else chain assigns in every branch, overwriting that value
    if ma0 = MttkrpAllMethod.Default then
      if fusedSS then MttkrpAllMethod.Atomic
      else if sp.is_cuda && fastAtomics sp then MttkrpAllMethod.Atomic
      else if sp.is_cuda then MttkrpAllMethod.Iterated
      else if p.method = SolverMethod.GCP_SGD then MttkrpAllMethod.Duplicated
      else MttkrpAllMethod.Iterated
    else ma0
  -- Fix invalid choices from the user (only on Cuda)
  if sp.is_cuda then
    let step1 :=
      if mm1 = MttkrpMethod.Single ∨ mm1 = MttkrpMethod.Duplicated then
        (if fastAtomics sp then MttkrpMethod.Atomic else MttkrpMethod.Perm,
         [FixupNotice.mttkrpInvalidForCuda])
      else (mm1, [])
    let step2 :=
      if ma1 = MttkrpAllMethod.Single ∨ ma1 = MttkrpAllMethod.Duplicated then
        (if fastAtomics sp || fusedSS then MttkrpAllMethod.Atomic
         else MttkrpAllMethod.Iterated,
         [FixupNotice.mttkrpAllInvalidForCuda])
      else (ma1, [])
    let step3 :=
      if fusedSS ∧ step2.1 ≠ MttkrpAllMethod.Atomic then
        (MttkrpAllMethod.Atomic, [FixupNotice.fusedSemiStratRequiresAtomic])
      else (step2.1, [])
    (⟨p.method, p.sampling_type, p.fuse, step1.1, step3.1⟩,
     step1.2 ++ step2.2 ++ step3.2)
  else
    (⟨p.method, p.sampling_type, p.fuse, mm1, ma1⟩, [])

/-- The guard at the top of `GCP_SS_Grad_Str<Kokkos::Cuda,loss_type>::run`:
`Genten::error` is raised iff the MTTKRP-All method is not `Atomic`. -/
def cudaFusedRunRejects (p : APForFixup) : Bool :=
  decide (p.mttkrp_all_method ≠ MttkrpAllMethod.Atomic)

/-! ## Fused semi-stratified gradient kernel contributions
(Genten_GCP_SS_Grad_Streaming_Def.hpp, `gcp_sgd_ss_grad_atomic_kernel`) -/

/-- `compute_Ktensor_value(M, ind)` (Genten_Ktensor.hpp, lines 372-427):
the current model's predicted value at coordinate `ind`.  Each component
contributes `tmp = M.weights(j)` multiplied by `M[m].entry(ind[m], j)` for
every mode `m < nd`, and the contributions are summed over `j < nc`:
`sum_j lam j * prod_m M m (ind m) j`.  (The `TinyVec` blocking of the
component loop only changes the floating-point summation order, which the
exact-rational model does not distinguish.) -/
def ktensorValueAt (nc nd : ℕ) (lam : ℕ → ℚ) (M : ℕ → ℕ → ℕ → ℚ)
    (ind : ℕ → ℕ) : ℚ :=
  ∑ j ∈ Finset.range nc, lam j * ∏ m ∈ Finset.range nd, M m (ind m) j

/-- The loop `for (m = 0; m < bound; ++m) if (m != n) tmp *= M[m].entry(ind[m], j)`
appearing in the kernels' `row_func` lambdas: product of the factor-row
entries of all modes below `bound` other than `n`. -/
def prodOtherModes (bound n : ℕ) (M : ℕ → ℕ → ℕ → ℚ) (ind : ℕ → ℕ)
    (j : ℕ) : ℚ :=
  ∏ m ∈ (Finset.range bound).erase n, M m (ind m) j

/-- Contribution atomically added to `G[nn].entry(ind[nn], j)` by the
nonzero-sample pass of `gcp_sgd_ss_grad_atomic_kernel` (lines 369-435):
`y_val = weight_nonzeros * (f.deriv(x_val, m_val) - f.deriv(0, m_val))`
times the product over all modes `m < nd`, `m != nn`, of
`M[m].entry(ind[m], j)`. -/
def ssGradNzContribAtomic (nd nc : ℕ) (lam : ℕ → ℚ) (M : ℕ → ℕ → ℕ → ℚ)
    (ind : ℕ → ℕ) (deriv : ℚ → ℚ → ℚ) (weight_nonzeros x_val : ℚ)
    (nn j : ℕ) : ℚ :=
  let m_val := ktensorValueAt nc nd lam M ind
  let y_val := weight_nonzeros * (deriv x_val m_val - deriv 0 m_val)
  y_val * prodOtherModes nd nn M ind j

/-- Contribution atomically added to `G[nn].entry(ind[nn], j)` by the
zero-sample pass of `gcp_sgd_ss_grad_atomic_kernel` (lines 455-518):
`y_val = weight_zeros * f.deriv(0, m_val)` times the product over modes
`m < d`, `m != nn` — note the source's `row_func` here loops `m < d`
(`d = modes.size()`), not `m < nd` as in the nonzero pass. -/
def ssGradZContribAtomic (d nd nc : ℕ) (lam : ℕ → ℚ) (M : ℕ → ℕ → ℕ → ℚ)
    (ind : ℕ → ℕ) (deriv : ℚ → ℚ → ℚ) (weight_zeros : ℚ)
    (nn j : ℕ) : ℚ :=
  let m_val := ktensorValueAt nc nd lam M ind
  let y_val := weight_zeros * deriv 0 m_val
  y_val * prodOtherModes d nn M ind j

/-! ## Per-epoch accept/reject logic (Genten_DistGCP.hpp) -/

/-- Outcome of one epoch's accept/reject decision: the parameter vector
`u`, the best snapshot `u_best`, the fit bookkeeping values, and which of
the success/failure notifications were issued to the stepper and the
annealer. -/
structure EpochDecision (σ : Type) where
  u : σ
  u_best : σ
  fest : ℚ
  fest_prev : ℚ
  fest_best : ℚ
  stepperPassed : Bool
  stepperFailed : Bool
  annealerSuccess : Bool
  annealerFailed : Bool

/-- The accept/reject block at the end of an `DistGCP::allReduceTrad`
epoch (lines 763-777): accept iff `fest_diff > -0.001 * fest_best` where
`fest_diff = fest_prev - fest`; on accept `setPassed`, `fest_prev = fest`,
`annealer.success()`, and only if `fest < fest_best` also `u_best.set(u)`
and `fest_best = fest`; on reject `u.set(u_best)`, `fest = fest_prev`,
`setFailed`, `annealer.failed()`. -/
def epochAcceptRejectTrad {σ : Type} (u u_best : σ)
    (fest fest_prev fest_best : ℚ) : EpochDecision σ :=
  let fest_diff := fest_prev - fest
  if fest_diff > -(1 / 1000) * fest_best then
    { u := u
      u_best := if fest < fest_best then u else u_best
      fest := fest
      fest_prev := fest
      fest_best := if fest < fest_best then fest else fest_best
      stepperPassed := true
      stepperFailed := false
      annealerSuccess := true
      annealerFailed := false }
  else
    { u := u_best
      u_best := u_best
      fest := fest_prev
      fest_prev := fest_prev
      fest_best := fest_best
      stepperPassed := false
      stepperFailed := true
      annealerSuccess := false
      annealerFailed := true }

/-- The accept/reject block at the end of a `DistGCP::fedOpt` epoch
(lines 577-593).  Identical to the traditional one except that on reject
`fest` is set to `fest_best` instead of `fest_prev` (the `meta_stepper`
receives the same pass/fail notification as `stepper`, so one flag pair
models both). -/
def epochAcceptRejectFed {σ : Type} (u u_best : σ)
    (fest fest_prev fest_best : ℚ) : EpochDecision σ :=
  let fest_diff := fest_prev - fest
  if fest_diff > -(1 / 1000) * fest_best then
    { u := u
      u_best := if fest < fest_best then u else u_best
      fest := fest
      fest_prev := fest
      fest_best := if fest < fest_best then fest else fest_best
      stepperPassed := true
      stepperFailed := false
      annealerSuccess := true
      annealerFailed := false }
  else
    { u := u_best
      u_best := u_best
      fest := fest_best
      fest_prev := fest_prev
      fest_best := fest_best
      stepperPassed := false
      stepperFailed := true
      annealerSuccess := false
      annealerFailed := true }

/-! ## Gradient all-reduce and the distributed inner iterations
(Genten_DistGCP.hpp, `allReduceKT` / `allReduceTrad` / `fedOpt`) -/

/-- Joint state of one Ktensor across the process grid, organised by mode:
`sizes i` is the size of mode `i`'s sub-communicator
(`pmap().subCommSizes()[i]`), and `dat i k x` is flat entry `x` of the
mode-`i` factor matrix held by member `k` of that sub-communicator. -/
structure GridKT where
  nd : ℕ
  sizes : ℕ → ℕ
  dat : ℕ → ℕ → ℕ → ℚ

/-- `DistGCP::allReduceKT(g, divide_by_grid_size)`: if `nprocs == 1`
return immediately; otherwise for each mode `i`, if the sub-communicator
has size 1 skip it, else `MPI_Allreduce(MPI_IN_PLACE, ..., MPI_SUM)` over
that sub-communicator replaces every member's factor data with the
elementwise sum over all members; finally, if `divide_by_grid_size`, every
mode's factor matrix (skipped or not) is scaled by `1.0 / gridSizes[d]`. -/
def allReduceKT (nprocs : ℕ) (g : GridKT) (divide_by_grid_size : Bool) :
    GridKT :=
  if nprocs = 1 then g
  else
    { g with
      dat := fun i k x =>
        let v := if g.sizes i = 1 then g.dat i k x
                 else ∑ j ∈ Finset.range (g.sizes i), g.dat i j x
        if divide_by_grid_size then v * (1 / (g.sizes i : ℚ)) else v }

/-- Modelled from the spec: `Impl::SGDStep::eval(g, u)` applies the plain
SGD update `param -= rate * grad` elementwise to every rank's local copy.
(The stepper sources are not among the given files.) -/
def sgdStepEval (rate : ℚ) (g u : GridKT) : GridKT :=
  { u with dat := fun i k x => u.dat i k x - rate * g.dat i k x }

/-- One inner iteration of `DistGCP::allReduceTrad` (lines 681-695), with
the locally computed gradient Ktensor `gr` as input: the gradient is
all-reduced with `divide_by_grid_size = false` and then consumed by
`stepper.eval(g, u)`. -/
def tradInnerIter (nprocs : ℕ) (rate : ℚ) (gr u : GridKT) : GridKT :=
  sgdStepEval rate (allReduceKT nprocs gr false) u

/-- The inner loop of an `allReduceTrad` epoch: `epochIters` repetitions of
`tradInnerIter`, with the iteration's local gradients supplied by `grOf`. -/
def tradEpochLoop (nprocs : ℕ) (rate : ℚ) (grOf : ℕ → GridKT) :
    ℕ → GridKT → GridKT
  | 0, u => u
  | n + 1, u => tradEpochLoop nprocs rate grOf n (tradInnerIter nprocs rate (grOf n) u)

/-- One inner iteration of `DistGCP::fedOpt` with `downpour_iters = 1` and
`fedavg = true` (lines 487-505): each rank takes a local SGD step
(`do_epoch_iter`, i.e. `stepper.eval(g, u)` with the local gradient), and
since `(i+1) % dp_iters == 0` holds every iteration, the parameters are
then all-reduced with `divide_by_grid_size = true` (averaged). -/
def fedavgInnerIter (nprocs : ℕ) (rate : ℚ) (gr us : GridKT) : GridKT :=
  allReduceKT nprocs (sgdStepEval rate gr us) true

/-! ## IEEE special values and the epoch loops (Genten_DistGCP.hpp) -/

/-- A floating-point value for the claims that hinge on IEEE special
values: a finite value (exact rational), a signed infinity (`inf true` is
positive infinity), or a not-a-number. -/
inductive Fv where
  | fl : ℚ → Fv
  | inf : Bool → Fv
  | nan : Fv
  deriving DecidableEq, Repr

/-- `std::isnan`. -/
def Fv.isNan : Fv → Bool
  | .nan => true
  | _ => false

/-- `std::isfinite`. -/
def Fv.isFinite : Fv → Bool
  | .fl _ => true
  | _ => false

/-- IEEE subtraction on `Fv`. -/
def Fv.sub : Fv → Fv → Fv
  | .nan, _ => .nan
  | _, .nan => .nan
  | .fl a, .fl b => .fl (a - b)
  | .fl _, .inf s => .inf (!s)
  | .inf s, .fl _ => .inf s
  | .inf s, .inf t => if s = t then .nan else .inf s

/-- IEEE multiplication of a (nonzero or zero) rational constant with an
`Fv` value. -/
def Fv.mulQ (c : ℚ) : Fv → Fv
  | .nan => .nan
  | .fl a => .fl (c * a)
  | .inf s => if c = 0 then .nan else if 0 < c then .inf s else .inf (!s)

/-- IEEE `>` on `Fv`: any comparison with a not-a-number is false. -/
def Fv.bgt : Fv → Fv → Bool
  | .nan, _ => false
  | _, .nan => false
  | .fl a, .fl b => decide (b < a)
  | .fl _, .inf s => !s
  | .inf s, .fl _ => s
  | .inf s, .inf t => s && !t

/-- IEEE `<` on `Fv`. -/
def Fv.blt (a b : Fv) : Bool := Fv.bgt b a

/-- Loop state of a distributed training run: the local model state `u`
(abstracting the Ktensor and any stepper state), the best snapshot, the
fit bookkeeping values, and a count of the epochs executed so far. -/
structure TrainSt (σ : Type) where
  u : σ
  u_best : σ
  fest_prev : Fv
  fest_best : Fv
  epochsRun : ℕ

/-- One `allReduceTrad` epoch (lines 671-777) at loop-control granularity:
the `epochIters` gradient/all-reduce/step cycles are abstracted as
`train`, the sampled fit evaluation
`pmap().gridAllReduce(Impl::gcp_value(...))` as `evalFit`; then the
accept/reject block runs.  `allReduceTrad` performs no `isnan` (or any
other finiteness) test on `fest`; a NaN `fest` simply falls into the
reject branch because `NaN > x` is false. -/
def tradEpochStep {σ : Type} (train : σ → σ) (evalFit : σ → Fv)
    (st : TrainSt σ) : TrainSt σ :=
  let u1 := train st.u
  let fest := evalFit u1
  let fest_diff := st.fest_prev.sub fest
  if fest_diff.bgt (Fv.mulQ (-(1 / 1000)) st.fest_best) then
    { u := u1
      u_best := if fest.blt st.fest_best then u1 else st.u_best
      fest_prev := fest
      fest_best := if fest.blt st.fest_best then fest else st.fest_best
      epochsRun := st.epochsRun + 1 }
  else
    { u := st.u_best
      u_best := st.u_best
      fest_prev := st.fest_prev
      fest_best := st.fest_best
      epochsRun := st.epochsRun + 1 }

/-- The epoch loop of `DistGCP::allReduceTrad`: `maxEpochs` epochs starting
at epoch index `e` (the index only feeds `train`, standing for the
annealed learning rate of that epoch), returning the final state; the
function's return value is `fest_prev` of that state (line 781). -/
def tradRunEpochs {σ : Type} (train : ℕ → σ → σ) (evalFit : σ → Fv) :
    ℕ → ℕ → TrainSt σ → TrainSt σ
  | _, 0, st => st
  | e, n + 1, st =>
      tradRunEpochs train evalFit (e + 1) n (tradEpochStep (train e) evalFit st)

/-- The accept/reject block of a `DistGCP::fedOpt` epoch (lines 577-593)
at loop-control granularity (only reached when `fest` is not NaN). -/
def fedAcceptReject {σ : Type} (st : TrainSt σ) (u1 : σ) (fest : Fv) :
    TrainSt σ :=
  if (st.fest_prev.sub fest).bgt (Fv.mulQ (-(1 / 1000)) st.fest_best) then
    { u := u1
      u_best := if fest.blt st.fest_best then u1 else st.u_best
      fest_prev := fest
      fest_best := if fest.blt st.fest_best then fest else st.fest_best
      epochsRun := st.epochsRun + 1 }
  else
    { u := st.u_best
      u_best := st.u_best
      fest_prev := st.fest_prev
      fest_best := st.fest_best
      epochsRun := st.epochsRun + 1 }

/-- The epoch loop of `DistGCP::fedOpt` (lines 465-595): each epoch runs
the inner iterations (`train`), evaluates the fit (`evalFit`), and — on
every rank — `if (std::isnan(fest)) return fest_best;` (lines 516-534);
otherwise the accept/reject block runs and the loop continues.  After
`maxEpochs` epochs the function returns `fest_prev`.  The result pairs the
returned fit value with the final loop state. -/
def fedRunEpochs {σ : Type} (train : ℕ → σ → σ) (evalFit : σ → Fv) :
    ℕ → ℕ → TrainSt σ → Fv × TrainSt σ
  | _, 0, st => (st.fest_prev, st)
  | e, n + 1, st =>
      let u1 := train e st.u
      let fest := evalFit u1
      if fest.isNan then
        (st.fest_best, { st with u := u1, epochsRun := st.epochsRun + 1 })
      else
        fedRunEpochs train evalFit (e + 1) n (fedAcceptReject st u1 fest)

/-! ## Ktensor operations and factor initialization
(Genten_Ktensor.cpp, Genten_DistGCP.hpp `init_factors`, driver) -/

/-- A Ktensor: `R` components, `nd` modes, `rows n` rows in mode `n`,
weights `lam`, and factor matrices `fac n i r` (mode, row, component). -/
structure Ktensor where
  R : ℕ
  nd : ℕ
  rows : ℕ → ℕ
  lam : ℕ → ℚ
  fac : ℕ → ℕ → ℕ → ℚ

/-- `FacMatrix::gramian` entry `(r, q)` of mode `n`: the dot product of
factor columns `r` and `q`. -/
def gramian (u : Ktensor) (n r q : ℕ) : ℚ :=
  ∑ i ∈ Finset.range (u.rows n), u.fac n i r * u.fac n i q

/-- The Hadamard product `H(r, q)` of the per-mode gramians accumulated by
`KtensorT::normFsq`. -/
def gramHadamard (u : Ktensor) (r q : ℕ) : ℚ :=
  ∏ n ∈ Finset.range u.nd, gramian u n r q

/-- `KtensorT::normFsq()`: the squared Frobenius norm of the represented
tensor, computed as in the source by
`sum_r (lam r ^ 2 * H(r,r) + sum_{q > r} 2 * lam r * lam q * H(r,q))`. -/
def normFsq (u : Ktensor) : ℚ :=
  ∑ r ∈ Finset.range u.R,
    (u.lam r * u.lam r * gramHadamard u r r +
      ∑ q ∈ Finset.Ico (r + 1) u.R, 2 * u.lam r * u.lam q * gramHadamard u r q)

/-- `Ktensor::setWeights(val)`: set every weight to `val`. -/
def setWeights (c : ℚ) (u : Ktensor) : Ktensor :=
  { u with lam := fun _ => c }

/-- Modelled from the spec: `Array::times(s)` on the weights vector scales
every weight by `s` in place (used as `Kfac_.weights().times(...)`; the
`Array` source is not among the given files). -/
def timesWeights (c : ℚ) (u : Ktensor) : Ktensor :=
  { u with lam := fun r => u.lam r * c }

/-- `KtensorT::distribute()`: take the `nd`-th root of each weight
(`lambda.power(1.0/nd)`), scale every factor matrix's column `r` by the
rooted weight (`colScale(lambda, false)` for each mode), and reset the
weights to 1.  The real `nd`-th root is represented by the function
`root`, constrained in the theorems by `root (lam r) ^ nd = lam r`. -/
def distributeWith (root : ℚ → ℚ) (u : Ktensor) : Ktensor :=
  { u with
    lam := fun _ => 1
    fac := fun n i r => u.fac n i r * root (u.lam r) }

/-- `DistGCP::init_factors` (lines 164-182), after the random scatter of
the factor matrices (`u0` holds those random matrices): `setWeights(1.0)`,
then `weights().times(1.0 / norm_x)` where `norm_x` is the data tensor's
norm, then `distribute()`. -/
def initFactorsScale (u0 : Ktensor) (norm_x : ℚ) (root : ℚ → ℚ) : Ktensor :=
  distributeWith root (timesWeights (1 / norm_x) (setWeights 1 u0))

/-- The normalization step of the shared-memory `driver`
(Genten_Driver.cpp, the second code block of the semistratified-sampler
source file, lines 480-483): `u_init.weights().times(norm_x / norm_u)`
with `norm_u = sqrt(u_init.normFsq())`. -/
def driverNormalize (u : Ktensor) (norm_x norm_u : ℚ) : Ktensor :=
  timesWeights (norm_x / norm_u) u

/-! ## Theorems -/

theorem sdmgLoop_closed : ∀ (p ml fpb fuel rem back : ℕ) (acc : List ℕ),
    1 ≤ fpb → rem ≤ p → ml = back + fpb * p + rem → p ≤ fuel →
    sdmgLoop ml fpb fuel rem (back :: acc) =
      ((List.range (p + 1)).map (fun i => back + i * fpb + min i rem)).reverse
        ++ acc := by
  intro p
  induction p with
  | zero =>
    intro ml fpb fuel rem back acc hfpb hrem hml _
    have hrem0 : rem = 0 := Nat.le_zero.mp hrem
    subst hrem0
    have hback : ¬ back < ml := by omega
    cases fuel with
    | zero => simp [sdmgLoop, List.range_succ]
    | succ f => simp [sdmgLoop, hback, List.range_succ]
  | succ p ih =>
    intro ml fpb fuel rem back acc hfpb hrem hml hfuel
    cases fuel with
    | zero => omega
    | succ f =>
      have hK : 1 ≤ fpb * (p + 1) := Nat.one_le_iff_ne_zero.mpr
        (Nat.mul_ne_zero (by omega) (by omega))
      have hback : back < ml := by omega
      cases rem with
      | zero =>
        have h1 : sdmgLoop ml fpb (f + 1) 0 (back :: acc) =
            sdmgLoop ml fpb f 0 ((back + fpb) :: back :: acc) := by
          simp [sdmgLoop, hback]
        rw [h1, ih ml fpb f 0 (back + fpb) (back :: acc) hfpb (by omega)
          (by rw [hml]; ring) (by omega)]
        have h2 : (fun i => back + fpb + i * fpb + min i 0) =
            ((fun i => back + i * fpb + min i 0) ∘ Nat.succ) := by
          funext i
          simp only [Function.comp, Nat.succ_eq_add_one, Nat.succ_mul,
            Nat.min_zero, Nat.add_min_add_right]
          ring
        rw [h2, List.range_succ_eq_map (p + 1), List.map_cons, List.map_map,
          List.reverse_cons, List.append_assoc]
        simp
      | succ r =>
        have h1 : sdmgLoop ml fpb (f + 1) (r + 1) (back :: acc) =
            sdmgLoop ml fpb f r ((back + fpb + 1) :: back :: acc) := by
          simp [sdmgLoop, hback]
        rw [h1, ih ml fpb f r (back + fpb + 1) (back :: acc) hfpb (by omega)
          (by rw [hml]; ring) (by omega)]
        have h2 : (fun i => back + fpb + 1 + i * fpb + min i r) =
            ((fun i => back + i * fpb + min i (r + 1)) ∘ Nat.succ) := by
          funext i
          simp only [Function.comp, Nat.succ_eq_add_one, Nat.succ_mul,
            Nat.succ_min_succ]
          ring
        rw [h2, List.range_succ_eq_map (p + 1), List.map_cons, List.map_map,
          List.reverse_cons, List.append_assoc]
        simp

theorem singleDimMediumGrainBlocking_closed (ml p : ℕ)
    (h2 : 1 ≤ p) (h3 : p ≤ ml) :
    singleDimMediumGrainBlocking ml p =
      (List.range (p + 1)).map (fun i => i * (ml / p) + min i (ml % p)) := by
  have hfpb : 1 ≤ ml / p := (Nat.one_le_div_iff (by omega)).mpr h3
  have hml : ml = 0 + (ml / p) * p + ml % p := by
    have h := Nat.div_add_mod ml p
    rw [Nat.mul_comm] at h
    omega
  rw [singleDimMediumGrainBlocking]
  simp only [show ¬ ml / p = 0 by omega, if_neg, ite_false]
  rw [sdmgLoop_closed p ml (ml / p) (ml + 1) (ml % p) 0 [] hfpb
    (le_of_lt (Nat.mod_lt ml (by omega))) hml (by omega)]
  simp

/-- C10: for every `ModeLength >= 1` and `1 <= ProcsInMode <= ModeLength`,
`singleDimMediumGrainBlocking` returns a strictly increasing sequence of
block boundaries that starts at 0, ends exactly at `ModeLength`, has
exactly `ProcsInMode + 1` entries, and whose consecutive differences are
all either `ModeLength / ProcsInMode` or `ModeLength / ProcsInMode + 1`;
hence the blocks partition `[0, ModeLength)` with sizes differing by at
most one. -/
theorem blocking_partition_props (ml p : ℕ)
    (h1 : 1 ≤ ml) (h2 : 1 ≤ p) (h3 : p ≤ ml) :
    (singleDimMediumGrainBlocking ml p).length = p + 1 ∧
    (singleDimMediumGrainBlocking ml p).head? = some 0 ∧
    (singleDimMediumGrainBlocking ml p).getLast? = some ml ∧
    ∀ i : ℕ, ∀ hi : i + 1 < (singleDimMediumGrainBlocking ml p).length,
      (singleDimMediumGrainBlocking ml p).get ⟨i, by omega⟩ <
          (singleDimMediumGrainBlocking ml p).get ⟨i + 1, hi⟩ ∧
        ((singleDimMediumGrainBlocking ml p).get ⟨i + 1, hi⟩ -
              (singleDimMediumGrainBlocking ml p).get ⟨i, by omega⟩ = ml / p ∨
          (singleDimMediumGrainBlocking ml p).get ⟨i + 1, hi⟩ -
              (singleDimMediumGrainBlocking ml p).get ⟨i, by omega⟩ =
            ml / p + 1) := by
  have hcl := singleDimMediumGrainBlocking_closed ml p h2 h3
  have hfpb : 1 ≤ ml / p := (Nat.one_le_div_iff (by omega)).mpr h3
  have hlen : (singleDimMediumGrainBlocking ml p).length = p + 1 := by
    rw [hcl]; simp
  have hget : ∀ i : ℕ, ∀ h : i < (singleDimMediumGrainBlocking ml p).length,
      (singleDimMediumGrainBlocking ml p).get ⟨i, h⟩ =
        i * (ml / p) + min i (ml % p) := by
    intro i h
    have h2i : i < p + 1 := by omega
    simp [hcl, List.get_eq_getElem, List.getElem_map]
  refine ⟨hlen, ?_, ?_, ?_⟩
  · rw [hcl, List.range_succ_eq_map]
    simp
  · rw [hcl]
    rw [List.getLast?_eq_getElem?]
    have hlen2 : ((List.range (p + 1)).map
        (fun i => i * (ml / p) + min i (ml % p))).length = p + 1 := by simp
    rw [hlen2]
    simp only [Nat.add_sub_cancel]
    rw [List.getElem?_map]
    simp only [List.getElem?_range (Nat.lt_succ_self p), Option.map_some',
      Option.some.injEq]
    have h := Nat.div_add_mod ml p
    have hrem : ml % p < p := Nat.mod_lt ml (by omega)
    omega
  · intro i hi
    rw [hget i (by omega), hget (i + 1) hi]
    rw [Nat.succ_mul]
    have hrem : ml % p < p := Nat.mod_lt ml (by omega)
    constructor
    · have : min i (ml % p) ≤ min (i + 1) (ml % p) := by omega
      omega
    · omega

/-- Witness for C10 at `ModeLength = 5`, `ProcsInMode = 2` (blocking
`[0, 3, 5]`). -/
theorem blocking_partition_props_witness :
    (singleDimMediumGrainBlocking 5 2).length = 2 + 1 ∧
    (singleDimMediumGrainBlocking 5 2).getLast? = some 5 := by
  have h := blocking_partition_props 5 2 (by decide) (by decide) (by decide)
  exact ⟨h.1, h.2.2.1⟩

theorem truncToIndx_natCast (n : ℕ) : truncToIndx (n : ℚ) = n := by
  simp [truncToIndx]

/-- C4: when the configured sample counts are zero, the
`SemiStratifiedSampler` constructor sets nonzero value-samples to
`max(ceil(nnz/100), 100000)` capped at `nnz`, zero value-samples to the
minimum of that and the number of implicit zeros, nonzero gradient-samples
to `max(ceil(3*nnz/maxEpochs), 1000)` capped at `nnz`, and zero
gradient-samples to the minimum of that and the number of implicit
zeros. -/
theorem ss_sampler_default_sample_counts (nnz numel maxEpochs : ℕ)
    (w1 w2 w3 w4 : ℚ) (hn : nnz ≤ numel) :
    (ssSamplerCtor nnz numel maxEpochs 0 0 0 0
        w1 w2 w3 w4).num_samples_nonzeros_value =
      min (max ((nnz + 99) / 100) 100000) nnz ∧
    (ssSamplerCtor nnz numel maxEpochs 0 0 0 0
        w1 w2 w3 w4).num_samples_zeros_value =
      min (min (max ((nnz + 99) / 100) 100000) nnz) (numel - nnz) ∧
    (ssSamplerCtor nnz numel maxEpochs 0 0 0 0
        w1 w2 w3 w4).num_samples_nonzeros_grad =
      min (max ((3 * nnz + maxEpochs - 1) / maxEpochs) 1000) nnz ∧
    (ssSamplerCtor nnz numel maxEpochs 0 0 0 0
        w1 w2 w3 w4).num_samples_zeros_grad =
      min (min (max ((3 * nnz + maxEpochs - 1) / maxEpochs) 1000) nnz)
        (numel - nnz) := by
  have hcast : (numel : ℚ) - (nnz : ℚ) = ((numel - nnz : ℕ) : ℚ) :=
    (Nat.cast_sub hn).symm
  refine ⟨rfl, ?_, rfl, ?_⟩ <;>
    simp only [ssSamplerCtor, if_pos rfl, hcast, ← Nat.cast_min,
      truncToIndx_natCast, if_true]

/-- Witness for C4 at `nnz = 50`, `numel = 1000`, `maxEpochs = 10`:
defaults are 50, 50, 50, 50. -/
theorem ss_sampler_default_sample_counts_witness :
    (ssSamplerCtor 50 1000 10 0 0 0 0 1 1 1 1).num_samples_nonzeros_value =
      min (max ((50 + 99) / 100) 100000) 50 := by
  exact (ss_sampler_default_sample_counts 50 1000 10 1 1 1 1 (by decide)).1

/-- C5 (amended): when a stratum's weight is unspecified (negative), the
constructor sets it to a population size divided by the final sample count
of the stratum — with population `nnz` for both nonzero strata, `numel -
nnz` for the zero value stratum, but the TOTAL tensor size `numel` (not
the number of implicit zeros) for the zero gradient stratum. -/
theorem ss_sampler_default_weights (nnz numel maxEpochs : ℕ)
    (c1 c2 c3 c4 : ℕ) (w1 w2 w3 w4 : ℚ)
    (h1 : w1 < 0) (h2 : w2 < 0) (h3 : w3 < 0) (h4 : w4 < 0) :
    (ssSamplerCtor nnz numel maxEpochs c1 c2 c3 c4
        w1 w2 w3 w4).weight_nonzeros_value =
      (nnz : ℚ) / ((ssSamplerCtor nnz numel maxEpochs c1 c2 c3 c4
        w1 w2 w3 w4).num_samples_nonzeros_value : ℚ) ∧
    (ssSamplerCtor nnz numel maxEpochs c1 c2 c3 c4
        w1 w2 w3 w4).weight_zeros_value =
      ((numel : ℚ) - (nnz : ℚ)) / ((ssSamplerCtor nnz numel maxEpochs c1 c2 c3
        c4 w1 w2 w3 w4).num_samples_zeros_value : ℚ) ∧
    (ssSamplerCtor nnz numel maxEpochs c1 c2 c3 c4
        w1 w2 w3 w4).weight_nonzeros_grad =
      (nnz : ℚ) / ((ssSamplerCtor nnz numel maxEpochs c1 c2 c3 c4
        w1 w2 w3 w4).num_samples_nonzeros_grad : ℚ) ∧
    (ssSamplerCtor nnz numel maxEpochs c1 c2 c3 c4
        w1 w2 w3 w4).weight_zeros_grad =
      (numel : ℚ) / ((ssSamplerCtor nnz numel maxEpochs c1 c2 c3 c4
        w1 w2 w3 w4).num_samples_zeros_grad : ℚ) := by
  refine ⟨?_, ?_, ?_, ?_⟩ <;>
    simp only [ssSamplerCtor, if_pos h1, if_pos h2, if_pos h3, if_pos h4]

/-- Witness for C5 (amended) at `nnz = 50`, `numel = 100`, all sample
counts explicitly 10 and all weights unspecified. -/
theorem ss_sampler_default_weights_witness :
    (ssSamplerCtor 50 100 10 10 10 10 10
        (-1) (-1) (-1) (-1)).weight_zeros_grad =
      (100 : ℚ) / ((ssSamplerCtor 50 100 10 10 10 10 10
        (-1) (-1) (-1) (-1)).num_samples_zeros_grad : ℚ) := by
  exact (ss_sampler_default_weights 50 100 10 10 10 10 10 (-1) (-1) (-1) (-1)
    (by norm_num) (by norm_num) (by norm_num) (by norm_num)).2.2.2

/-- Counterexample to C5 as stated: with `nnz = 50` nonzeros out of
`numel = 100` entries and 10 zero gradient-samples, the defaulted zero
gradient weight is `100 / 10 = 10`, not the claimed population of implicit
zeros over the sample count, `(100 - 50) / 10 = 5`. -/
theorem zero_grad_weight_counterexample :
    (ssSamplerCtor 50 100 10 10 10 10 10
        (-1) (-1) (-1) (-1)).weight_zeros_grad = 10 ∧
    (ssSamplerCtor 50 100 10 10 10 10 10
        (-1) (-1) (-1) (-1)).weight_zeros_grad ≠
      ((100 : ℚ) - 50) / 10 := by
  constructor <;> norm_num [ssSamplerCtor]

/-- C8: when the method is GCP-SGD with semi-stratified sampling and fused
kernels on a Cuda target, and the user explicitly chose an MTTKRP-All
method other than Atomic, `AlgParams::fixup` overrides the choice to
Atomic and logs a notice, and the subsequent Cuda fused kernel run check
does not reject the configuration with an error. -/
theorem fixup_forces_atomic_on_cuda_fused (sp : SpaceProp) (p : APForFixup)
    (hc : sp.is_cuda = true) (hm : p.method = SolverMethod.GCP_SGD)
    (hs : p.sampling_type = SamplingType.SemiStratified) (hf : p.fuse = true)
    (hd : p.mttkrp_all_method ≠ MttkrpAllMethod.Default)
    (ha : p.mttkrp_all_method ≠ MttkrpAllMethod.Atomic) :
    (algParamsFixup sp p).1.mttkrp_all_method = MttkrpAllMethod.Atomic ∧
    (algParamsFixup sp p).2 ≠ [] ∧
    cudaFusedRunRejects (algParamsFixup sp p).1 = false := by
  obtain ⟨m, s, f, mm, ma⟩ := p
  simp only at hm hs hf hd ha
  subst hm hs hf
  simp only [algParamsFixup, cudaFusedRunRejects, hc, if_pos, decide_True,
    Bool.and_self, Bool.true_and, Bool.and_true, if_true]
  cases ma <;> simp_all

/-- Witness for C8: Cuda space, GCP-SGD, semi-stratified, fused, user
explicitly chose Iterated. -/
theorem fixup_forces_atomic_on_cuda_fused_witness :
    (algParamsFixup ⟨true, 128, 700, 8⟩
        ⟨SolverMethod.GCP_SGD, SamplingType.SemiStratified, true,
          MttkrpMethod.Default, MttkrpAllMethod.Iterated⟩).1.mttkrp_all_method =
      MttkrpAllMethod.Atomic := by
  exact (fixup_forces_atomic_on_cuda_fused ⟨true, 128, 700, 8⟩
    ⟨SolverMethod.GCP_SGD, SamplingType.SemiStratified, true,
      MttkrpMethod.Default, MttkrpAllMethod.Iterated⟩
    rfl rfl rfl rfl (by decide) (by decide)).1

/-- C1 (amended): for both distributed strategies the epoch is accepted
iff `fest_prev - fest > -0.001 * fest_best`; on accept the stepper and
annealer are notified of success, `fest_prev` becomes `fest`, and the best
snapshot and `fest_best` are updated ONLY when `fest < fest_best`
(not on every accept); on reject the parameters are restored from the
best snapshot and the stepper and annealer are notified of failure, with
the traditional strategy reporting `fest_prev` and the federated strategy
reporting `fest_best` as the epoch's fit. -/
theorem epoch_accept_reject_characterization {σ : Type} (u u_best : σ)
    (fest fest_prev fest_best : ℚ) :
    ((epochAcceptRejectTrad u u_best fest fest_prev fest_best).stepperPassed =
        decide (fest_prev - fest > -(1 / 1000) * fest_best) ∧
      (epochAcceptRejectFed u u_best fest fest_prev fest_best).stepperPassed =
        decide (fest_prev - fest > -(1 / 1000) * fest_best)) ∧
    ((epochAcceptRejectTrad u u_best fest fest_prev fest_best).annealerSuccess =
        (epochAcceptRejectTrad u u_best fest fest_prev fest_best).stepperPassed ∧
      (epochAcceptRejectTrad u u_best fest fest_prev fest_best).stepperFailed =
        !(epochAcceptRejectTrad u u_best fest fest_prev fest_best).stepperPassed ∧
      (epochAcceptRejectTrad u u_best fest fest_prev fest_best).annealerFailed =
        !(epochAcceptRejectTrad u u_best fest fest_prev fest_best).stepperPassed) ∧
    (epochAcceptRejectTrad u u_best fest fest_prev fest_best).u =
      (if fest_prev - fest > -(1 / 1000) * fest_best then u else u_best) ∧
    (epochAcceptRejectTrad u u_best fest fest_prev fest_best).u_best =
      (if fest_prev - fest > -(1 / 1000) * fest_best then
        (if fest < fest_best then u else u_best) else u_best) ∧
    (epochAcceptRejectTrad u u_best fest fest_prev fest_best).fest_best =
      (if fest_prev - fest > -(1 / 1000) * fest_best then
        (if fest < fest_best then fest else fest_best) else fest_best) ∧
    (epochAcceptRejectTrad u u_best fest fest_prev fest_best).fest_prev =
      (if fest_prev - fest > -(1 / 1000) * fest_best then fest else fest_prev) ∧
    (epochAcceptRejectTrad u u_best fest fest_prev fest_best).fest =
      (if fest_prev - fest > -(1 / 1000) * fest_best then fest else fest_prev) ∧
    (epochAcceptRejectFed u u_best fest fest_prev fest_best).u =
      (epochAcceptRejectTrad u u_best fest fest_prev fest_best).u ∧
    (epochAcceptRejectFed u u_best fest fest_prev fest_best).u_best =
      (epochAcceptRejectTrad u u_best fest fest_prev fest_best).u_best ∧
    (epochAcceptRejectFed u u_best fest fest_prev fest_best).fest_best =
      (epochAcceptRejectTrad u u_best fest fest_prev fest_best).fest_best ∧
    (epochAcceptRejectFed u u_best fest fest_prev fest_best).fest_prev =
      (epochAcceptRejectTrad u u_best fest fest_prev fest_best).fest_prev ∧
    (epochAcceptRejectFed u u_best fest fest_prev fest_best).fest =
      (if fest_prev - fest > -(1 / 1000) * fest_best then fest else fest_best) := by
  by_cases h : fest_prev - fest > -(1 / 1000) * fest_best
  · simp only [epochAcceptRejectTrad, epochAcceptRejectFed, if_pos h,
      decide_eq_true h]
    simp
  · simp only [epochAcceptRejectTrad, epochAcceptRejectFed, if_neg h,
      decide_eq_false h]
    simp

/-- Counterexample to C1 as stated: with `fest_prev = fest_best = 10` and
`fest = 10.005` the epoch is accepted (`-0.005 > -0.01`), yet the best
snapshot is NOT updated: `u_best` stays `0` while the accepted parameters
are `u = 1` (and `fest_best` stays `10`), in both strategies. -/
theorem accept_without_best_snapshot :
    ((10 : ℚ) - 2001 / 200 > -(1 / 1000) * 10) ∧
    (epochAcceptRejectTrad (1 : ℚ) 0 (2001 / 200) 10 10).stepperPassed = true ∧
    (epochAcceptRejectTrad (1 : ℚ) 0 (2001 / 200) 10 10).u = 1 ∧
    (epochAcceptRejectTrad (1 : ℚ) 0 (2001 / 200) 10 10).u_best = 0 ∧
    (epochAcceptRejectTrad (1 : ℚ) 0 (2001 / 200) 10 10).fest_best = 10 ∧
    (epochAcceptRejectFed (1 : ℚ) 0 (2001 / 200) 10 10).u_best = 0 ∧
    (0 : ℚ) ≠ 1 := by
  refine ⟨by norm_num, ?_, ?_, ?_, ?_, ?_, by norm_num⟩ <;>
    norm_num [epochAcceptRejectTrad, epochAcceptRejectFed]

/-- C2: in every inner iteration of `allReduceTrad`, the gradient consumed
by `stepper.eval` at mode `i` on sub-communicator member `k` is the
elementwise SUM of the local gradients over that mode's sub-communicator
(no division by the communicator size), with modes whose sub-communicator
has size 1 skipped (and the whole all-reduce skipped for a single-process
run); the epoch loop is exactly the `epochIters`-fold repetition of this
gradient/all-reduce/step cycle, so gradients are synchronized every
iteration. -/
theorem trad_gradient_allreduce_sum (nprocs : ℕ) (rate : ℚ)
    (gr u : GridKT) (grOf : ℕ → GridKT) (i k x n : ℕ) :
    (tradInnerIter nprocs rate gr u).dat i k x =
      u.dat i k x - rate *
        (if nprocs = 1 then gr.dat i k x
         else if gr.sizes i = 1 then gr.dat i k x
         else ∑ j ∈ Finset.range (gr.sizes i), gr.dat i j x) ∧
    tradEpochLoop nprocs rate grOf (n + 1) u =
      tradEpochLoop nprocs rate grOf n (tradInnerIter nprocs rate (grOf n) u) := by
  refine ⟨?_, rfl⟩
  by_cases hnp : nprocs = 1
  · simp [tradInnerIter, allReduceKT, sgdStepEval, hnp]
  · by_cases hsz : gr.sizes i = 1 <;>
      simp [tradInnerIter, allReduceKT, sgdStepEval, hnp, hsz]

/-- C7 (amended): with `downpour_iters = 1` and `fedavg = true`, fedOpt
synchronizes every iteration with no local drift — after one iteration
every member of mode `i`'s sub-communicator holds
`u - (rate / P_i) * sum_k g_k` where `P_i` is the sub-communicator size —
whereas `allReduceTrad` with the plain SGD stepper produces
`u - rate * sum_k g_k`; the two coincide when the sub-communicator has
size 1 but differ by the factor `P_i` otherwise, because the traditional
strategy sums gradients without averaging while fedavg averages
parameters. -/
theorem fedavg_dp1_characterization (nprocs : ℕ) (rate : ℚ)
    (gr us : GridKT) (i k x : ℕ) (hnp : nprocs ≠ 1)
    (hks : k < us.sizes i) (hsz : gr.sizes i = us.sizes i)
    (hcopies : ∀ j, j < us.sizes i → us.dat i j x = us.dat i 0 x) :
    (fedavgInnerIter nprocs rate gr us).dat i k x =
      us.dat i 0 x - (rate / (us.sizes i : ℚ)) *
        ∑ j ∈ Finset.range (us.sizes i), gr.dat i j x ∧
    (tradInnerIter nprocs rate gr us).dat i k x =
      us.dat i 0 x - rate * ∑ j ∈ Finset.range (us.sizes i), gr.dat i j x ∧
    (us.sizes i = 1 →
      (fedavgInnerIter nprocs rate gr us).dat i k x =
        (tradInnerIter nprocs rate gr us).dat i k x) := by
  have hP : 0 < us.sizes i := by omega
  have hPQ : ((us.sizes i : ℚ)) ≠ 0 := by
    exact_mod_cast Nat.pos_iff_ne_zero.mp hP
  by_cases h1 : us.sizes i = 1
  · have hk0 : k = 0 := by omega
    subst hk0
    have e1 : (fedavgInnerIter nprocs rate gr us).dat i 0 x =
        us.dat i 0 x - rate * gr.dat i 0 x := by
      simp [fedavgInnerIter, allReduceKT, sgdStepEval, hnp, h1]
    have e2 : (tradInnerIter nprocs rate gr us).dat i 0 x =
        us.dat i 0 x - rate * gr.dat i 0 x := by
      simp [tradInnerIter, allReduceKT, sgdStepEval, hnp, hsz, h1]
    rw [e1, e2, h1]
    refine ⟨?_, ?_, fun _ => rfl⟩ <;> simp [Finset.sum_range_one]
  · have hsum : ∑ j ∈ Finset.range (us.sizes i),
        (us.dat i j x - rate * gr.dat i j x) =
        (us.sizes i : ℚ) * us.dat i 0 x -
          rate * ∑ j ∈ Finset.range (us.sizes i), gr.dat i j x := by
      rw [Finset.sum_sub_distrib, ← Finset.mul_sum]
      congr 1
      rw [Finset.sum_congr rfl (fun j hj => hcopies j (Finset.mem_range.mp hj))]
      rw [Finset.sum_const, Finset.card_range, nsmul_eq_mul]
    have e1 : (fedavgInnerIter nprocs rate gr us).dat i k x =
        (∑ j ∈ Finset.range (us.sizes i),
          (us.dat i j x - rate * gr.dat i j x)) * (1 / (us.sizes i : ℚ)) := by
      simp [fedavgInnerIter, allReduceKT, sgdStepEval, hnp, h1]
    have e2 : (tradInnerIter nprocs rate gr us).dat i k x =
        us.dat i k x - rate * ∑ j ∈ Finset.range (us.sizes i), gr.dat i j x := by
      simp [tradInnerIter, allReduceKT, sgdStepEval, hnp, hsz, h1]
    refine ⟨?_, ?_, fun hc => absurd hc h1⟩
    · rw [e1, hsum]
      field_simp
      ring
    · rw [e2, hcopies k hks]

/-- Counterexample to C7 as stated: two ranks, mode sub-communicator of
size 2, both local gradients 1, learning rate 1, parameters 0.  One
fedavg iteration yields `-1` while one traditional all-reduce iteration
yields `-2`: the parameter updates are not equivalent. -/
theorem fedavg_vs_allreduce_differ :
    (fedavgInnerIter 2 1 ⟨1, fun _ => 2, fun _ _ _ => 1⟩
      ⟨1, fun _ => 2, fun _ _ _ => 0⟩).dat 0 0 0 = -1 ∧
    (tradInnerIter 2 1 ⟨1, fun _ => 2, fun _ _ _ => 1⟩
      ⟨1, fun _ => 2, fun _ _ _ => 0⟩).dat 0 0 0 = -2 ∧
    ((-1 : ℚ) ≠ -2) := by
  refine ⟨?_, ?_, by norm_num⟩ <;>
    norm_num [fedavgInnerIter, tradInnerIter, allReduceKT, sgdStepEval,
      Finset.sum_range_succ]

/-- Witness for C7 (amended): two ranks, sub-communicator size 2, equal
parameter copies. -/
theorem fedavg_dp1_characterization_witness :
    (fedavgInnerIter 2 1 ⟨1, fun _ => 2, fun _ _ _ => 1⟩
      ⟨1, fun _ => 2, fun _ _ _ => 0⟩).dat 0 0 0 =
      (0 : ℚ) - ((1 : ℚ) / (2 : ℕ)) * ∑ j ∈ Finset.range 2, (1 : ℚ) := by
  have h := fedavg_dp1_characterization 2 1
    ⟨1, fun _ => 2, fun _ _ _ => 1⟩ ⟨1, fun _ => 2, fun _ _ _ => 0⟩
    0 0 0 (by decide) (by decide) rfl (fun j _ => rfl)
  exact h.1

theorem tradEpochStep_epochsRun {σ : Type} (train : σ → σ) (evalFit : σ → Fv)
    (st : TrainSt σ) :
    (tradEpochStep train evalFit st).epochsRun = st.epochsRun + 1 := by
  rw [tradEpochStep]
  split <;> rfl

/-- C6 (amended): `fedOpt` returns `fest_best` and stops the epoch loop
exactly when an epoch's fit evaluates to NaN (infinities are NOT caught:
the `isNan` test is false and the loop continues); `allReduceTrad` has no
such test at all — its epoch loop always executes all `maxEpochs` epochs
regardless of the fit values, a NaN fit merely landing in the reject
branch because NaN compares false. -/
theorem nan_abort_behavior {σ : Type} (train : ℕ → σ → σ)
    (evalFit : σ → Fv) (e n : ℕ) (st : TrainSt σ) :
    ((tradRunEpochs train evalFit e n st).epochsRun = st.epochsRun + n) ∧
    ((evalFit (train e st.u)).isNan = true →
      (fedRunEpochs train evalFit e (n + 1) st).1 = st.fest_best ∧
      (fedRunEpochs train evalFit e (n + 1) st).2.epochsRun =
        st.epochsRun + 1) ∧
    ((evalFit (train e st.u)).isNan = false →
      fedRunEpochs train evalFit e (n + 1) st =
        fedRunEpochs train evalFit (e + 1) n
          (fedAcceptReject st (train e st.u) (evalFit (train e st.u)))) := by
  refine ⟨?_, ?_, ?_⟩
  · induction n generalizing e st with
    | zero => rfl
    | succ m ih =>
      rw [tradRunEpochs, ih (e + 1) (tradEpochStep (train e) evalFit st),
        tradEpochStep_epochsRun]
      omega
  · intro hnan
    rw [fedRunEpochs]
    simp [hnan]
  · intro hnot
    rw [fedRunEpochs]
    simp only [hnot, Bool.false_eq_true, if_false]

/-- Witness for C6 (amended): with model state counting the training
calls, the fit is NaN at the first epoch; `fedOpt` stops after 1 epoch
returning the best fit, while the traditional loop completes 2 epochs. -/
theorem nan_abort_behavior_witness :
    ((tradRunEpochs (fun _ u => u + 1)
        (fun u => if u = 1 then Fv.nan else Fv.fl 1) 0 2
        ⟨(0 : ℕ), 0, Fv.fl 1, Fv.fl 1, 0⟩).epochsRun = 0 + 2) ∧
    ((fedRunEpochs (fun _ u => u + 1)
        (fun u => if u = 1 then Fv.nan else Fv.fl 1) 0 2
        ⟨(0 : ℕ), 0, Fv.fl 1, Fv.fl 1, 0⟩).1 = Fv.fl 1) := by
  have h := nan_abort_behavior (σ := ℕ) (fun _ u => u + 1)
    (fun u => if u = 1 then Fv.nan else Fv.fl 1) 0 1
    ⟨0, 0, Fv.fl 1, Fv.fl 1, 0⟩
  have h2 := nan_abort_behavior (σ := ℕ) (fun _ u => u + 1)
    (fun u => if u = 1 then Fv.nan else Fv.fl 1) 0 2
    ⟨0, 0, Fv.fl 1, Fv.fl 1, 0⟩
  exact ⟨h2.1, (h.2.1 (by decide)).1⟩

/-- Counterexample to C6 as stated: the fit becomes non-finite (NaN) after
the first epoch's evaluation, yet `allReduceTrad` does not abort — it runs
both of its 2 epochs; and a fit of positive infinity (non-finite but not
NaN) does not abort `fedOpt` either — its loop also runs both epochs. -/
theorem trad_loop_ignores_nan_fit :
    ((fun u => if u = 1 then Fv.nan else Fv.fl 1)
        ((fun (_ : ℕ) (u : ℕ) => u + 1) 0 0) = Fv.nan) ∧
    (Fv.nan.isFinite = false) ∧
    ((tradRunEpochs (fun _ u => u + 1)
        (fun u => if u = 1 then Fv.nan else Fv.fl 1) 0 2
        ⟨(0 : ℕ), 0, Fv.fl 1, Fv.fl 1, 0⟩).epochsRun = 2) ∧
    (2 ≠ 1) ∧
    ((Fv.inf true).isFinite = false) ∧
    ((fedRunEpochs (fun _ u => u + 1) (fun _ => Fv.inf true) 0 2
        ⟨(0 : ℕ), 0, Fv.fl 1, Fv.fl 1, 0⟩).2.epochsRun = 2) := by
  refine ⟨rfl, rfl, ?_, by decide, rfl, ?_⟩ <;> decide

/-- C3: evaluation of the fused semi-stratified atomic kernel at a
streaming call with `nd = 3` modes but `modes = [0, 1]` (`d = 2`), rank 1,
factors `M[m] = m + 2` everywhere, `lossDeriv(a, b) = a + b + 1`, unit
weights, target mode 0.  The nonzero-sample contribution is the claimed
`weight * (deriv(x, m_val) - deriv(0, m_val))` times the product over ALL
other modes (`3 * 4 = 12`), but the zero-sample contribution is
`25 * 3 = 75`, not the claimed `weight * deriv(0, m_val)` times the
product over all other modes, which is `25 * 12 = 300`: the zero-sample
`row_func` multiplies only the modes below `d = modes.size()`, dropping
mode 2's factor row. -/
theorem ss_grad_zero_kernel_mode_slip :
    ssGradNzContribAtomic 3 1 (fun _ => 1) (fun m _ _ => (m : ℚ) + 2)
        (fun _ => 0) (fun a b => a + b + 1) 1 1 0 0 =
      1 * ((fun (a b : ℚ) => a + b + 1) 1
            (ktensorValueAt 1 3 (fun _ => 1) (fun m _ _ => (m : ℚ) + 2)
              (fun _ => 0)) -
          (fun (a b : ℚ) => a + b + 1) 0
            (ktensorValueAt 1 3 (fun _ => 1) (fun m _ _ => (m : ℚ) + 2)
              (fun _ => 0))) *
        prodOtherModes 3 0 (fun m _ _ => (m : ℚ) + 2) (fun _ => 0) 0 ∧
    ssGradZContribAtomic 2 3 1 (fun _ => 1) (fun m _ _ => (m : ℚ) + 2)
        (fun _ => 0) (fun a b => a + b + 1) 1 0 0 = 75 ∧
    1 * ((fun (a b : ℚ) => a + b + 1) 0
          (ktensorValueAt 1 3 (fun _ => 1) (fun m _ _ => (m : ℚ) + 2)
            (fun _ => 0))) *
        prodOtherModes 3 0 (fun m _ _ => (m : ℚ) + 2) (fun _ => 0) 0 = 300 ∧
    ssGradZContribAtomic 2 3 1 (fun _ => 1) (fun m _ _ => (m : ℚ) + 2)
        (fun _ => 0) (fun a b => a + b + 1) 1 0 0 ≠
      1 * ((fun (a b : ℚ) => a + b + 1) 0
          (ktensorValueAt 1 3 (fun _ => 1) (fun m _ _ => (m : ℚ) + 2)
            (fun _ => 0))) *
        prodOtherModes 3 0 (fun m _ _ => (m : ℚ) + 2) (fun _ => 0) 0 := by
  have e2 : (Finset.range 2).erase 0 = {1} := by
    ext x
    simp only [Finset.mem_erase, Finset.mem_range, Finset.mem_singleton]
    omega
  have e3 : (Finset.range 3).erase 0 = {1, 2} := by
    ext x
    simp only [Finset.mem_erase, Finset.mem_range, Finset.mem_insert,
      Finset.mem_singleton]
    omega
  have hz : ssGradZContribAtomic 2 3 1 (fun _ => 1) (fun m _ _ => (m : ℚ) + 2)
      (fun _ => 0) (fun a b => a + b + 1) 1 0 0 = 75 := by
    simp only [ssGradZContribAtomic, ktensorValueAt, prodOtherModes, e2]
    rw [Finset.prod_singleton]
    norm_num [Finset.sum_range_succ, Finset.prod_range_succ]
  have hs : 1 * ((fun (a b : ℚ) => a + b + 1) 0
      (ktensorValueAt 1 3 (fun _ => 1) (fun m _ _ => (m : ℚ) + 2)
        (fun _ => 0))) *
      prodOtherModes 3 0 (fun m _ _ => (m : ℚ) + 2) (fun _ => 0) 0 = 300 := by
    simp only [ktensorValueAt, prodOtherModes, e3]
    rw [Finset.prod_pair (by norm_num : (1 : ℕ) ≠ 2)]
    norm_num [Finset.sum_range_succ, Finset.prod_range_succ]
  refine ⟨rfl, hz, hs, ?_⟩
  rw [hz, hs]
  norm_num

theorem normFsq_timesWeights (c : ℚ) (u : Ktensor) :
    normFsq (timesWeights c u) = c ^ 2 * normFsq u := by
  simp only [normFsq, timesWeights, gramHadamard, gramian]
  rw [Finset.mul_sum]
  refine Finset.sum_congr rfl fun r _ => ?_
  rw [mul_add, Finset.mul_sum]
  congr 1
  · ring
  · exact Finset.sum_congr rfl fun q _ => by ring

theorem gramian_distributeWith (root : ℚ → ℚ) (u : Ktensor) (n r q : ℕ) :
    gramian (distributeWith root u) n r q =
      root (u.lam r) * root (u.lam q) * gramian u n r q := by
  simp only [distributeWith, gramian]
  rw [Finset.mul_sum]
  exact Finset.sum_congr rfl fun i _ => by ring

theorem gramHadamard_distributeWith (root : ℚ → ℚ) (u : Ktensor) (r q : ℕ)
    (hr : root (u.lam r) ^ u.nd = u.lam r)
    (hq : root (u.lam q) ^ u.nd = u.lam q) :
    gramHadamard (distributeWith root u) r q =
      u.lam r * u.lam q * gramHadamard u r q := by
  have hnd : (distributeWith root u).nd = u.nd := rfl
  simp only [gramHadamard, hnd]
  rw [Finset.prod_congr rfl fun n _ => gramian_distributeWith root u n r q]
  rw [Finset.prod_mul_distrib, Finset.prod_const, Finset.card_range,
    mul_pow, hr, hq]

theorem normFsq_distributeWith (root : ℚ → ℚ) (u : Ktensor)
    (h : ∀ r, r < u.R → root (u.lam r) ^ u.nd = u.lam r) :
    normFsq (distributeWith root u) = normFsq u := by
  have hR : (distributeWith root u).R = u.R := rfl
  have hlam : ∀ r, (distributeWith root u).lam r = 1 := fun _ => rfl
  simp only [normFsq, hR, hlam]
  refine Finset.sum_congr rfl fun r hr => ?_
  have hrR : r < u.R := Finset.mem_range.mp hr
  congr 1
  · rw [gramHadamard_distributeWith root u r r (h r hrR) (h r hrR)]
    ring
  · refine Finset.sum_congr rfl fun q hq => ?_
    have hqR : q < u.R := (Finset.mem_Ico.mp hq).2
    rw [gramHadamard_distributeWith root u r q (h r hrR) (h q hqR)]
    ring

/-- C9 (amended): `DistGCP::init_factors` sets the weights to 1, scatters
random factor matrices (`u0`), multiplies the weights by `1 / norm_x`, and
distributes; the resulting squared Frobenius norm is
`normFsq(random guess) / norm_x^2` — it is NOT normalized to match the
data norm.  The shared-memory `driver` by contrast multiplies the weights
by `norm_x / norm_u` with `norm_u = sqrt(normFsq(u))`, so its squared norm
becomes exactly `norm_x^2`, matching the data norm. -/
theorem init_norm_scaling (u0 u1 : Ktensor) (norm_x norm_u : ℚ)
    (root : ℚ → ℚ) (hroot : root (1 / norm_x) ^ u0.nd = 1 / norm_x)
    (hu : norm_u ≠ 0) (hnu : norm_u ^ 2 = normFsq u1) :
    normFsq (initFactorsScale u0 norm_x root) =
      normFsq (setWeights 1 u0) / norm_x ^ 2 ∧
    normFsq (driverNormalize u1 norm_x norm_u) = norm_x ^ 2 := by
  constructor
  · rw [initFactorsScale,
      normFsq_distributeWith root _
        (fun r _ => by simpa [timesWeights, setWeights] using hroot),
      normFsq_timesWeights]
    rw [one_div, inv_pow, mul_comm, ← div_eq_mul_inv]
  · rw [driverNormalize, normFsq_timesWeights, ← hnu, div_pow]
    exact div_mul_cancel₀ _ (pow_ne_zero 2 hu)

/-- Witness for C9 (amended): one mode, rank 1, a 1x1 random factor `2`,
`norm_x = 4`, `norm_u = 2`. -/
theorem init_norm_scaling_witness :
    normFsq (initFactorsScale ⟨1, 1, fun _ => 1, fun _ => 5, fun _ _ _ => 2⟩ 4
        (fun q => q)) =
      normFsq (setWeights 1 ⟨1, 1, fun _ => 1, fun _ => 5, fun _ _ _ => 2⟩) /
        4 ^ 2 := by
  exact (init_norm_scaling ⟨1, 1, fun _ => 1, fun _ => 5, fun _ _ _ => 2⟩
    ⟨1, 1, fun _ => 1, fun _ => 1, fun _ _ _ => 2⟩ 4 2 (fun q => q)
    (by norm_num) (by norm_num)
    (by norm_num [normFsq, gramHadamard, gramian, Finset.sum_range_succ,
      Finset.prod_range_succ, Finset.Ico_self])).1

/-- Counterexample to C9 as stated: with a single 1x1 random factor `2`
and data norm `norm_x = 4`, `init_factors` produces a Ktensor of squared
norm `1/4`, whereas matching the data norm would require `4^2 = 16`. -/
theorem init_factors_norm_mismatch :
    normFsq (initFactorsScale ⟨1, 1, fun _ => 1, fun _ => 5, fun _ _ _ => 2⟩ 4
        (fun q => q)) = 1 / 4 ∧
    ((1 : ℚ) / 4) ≠ 4 ^ 2 := by
  constructor
  · norm_num [initFactorsScale, distributeWith, timesWeights, setWeights,
      normFsq, gramHadamard, gramian, Finset.sum_range_succ,
      Finset.prod_range_succ, Finset.Ico_self]
  · norm_num
